import Mathlib

/-!
Verification of the scope-chain data model and rendering algorithm of
`src/types.rs` (stripper-interface).

The Rust source defines:
* `enum Type` — the symbol-kind taxonomy (embedded here as `Type'`, since
  `Type` is reserved in Lean), with `Type::from` (keyword classification)
  and `Display for Type` (canonical keyword rendering);
* `struct TypeStruct` — a scope node holding `ty`, `parent: Option<Box<TypeStruct>>`,
  `name`, `args: Vec<String>`, with `PartialEq` (structural equality),
  `Clone` (deep copy of the parent chain), `Debug` (renders the whole chain),
  and `Display` (renders the chain through `sub_call`, eliding ancestor
  nodes of kind `Macro`);
* `enum EventType` — the scan-event union.

Rust strings are embedded as Lean `String`, `Vec<String>` as `List String`,
and `Option<Box<TypeStruct>>` as `Option TypeStruct` (boxing is invisible to
value semantics).  `Vec::join(" ")` is embedded as `spaceJoin`.  Rendering
through a `Formatter` is a sequence of `write!` calls whose only observable
effect is the concatenation of the written fragments, so each `fmt`-style
function is embedded as a pure `String`-valued function.
-/

namespace Stripper

/-- The `Type` enum of `src/types.rs` (symbol kinds). -/
inductive Type' : Type where
  | Struct
  | Mod
  | Enum
  | Fn
  | Const
  | Static
  | «Type»
  | Variant
  | Impl
  | Use
  | Macro
  | Trait
  | Unknown
deriving DecidableEq, Repr

/-- `impl Display for Type` of `src/types.rs`: the canonical keyword for each
kind; the wildcard arm (reached only by `Unknown`) writes `"?"`. -/
def Type'.display : Type' → String
  | .Struct => "struct"
  | .Mod => "mod"
  | .Enum => "enum"
  | .Fn => "fn"
  | .Const => "const"
  | .Static => "static"
  | .«Type» => "type"
  | .Variant => "variant"
  | .Impl => "impl"
  | .Use => "use"
  | .Trait => "trait"
  | .Macro => "macro"
  | .Unknown => "?"

/-- `Type::from` of `src/types.rs`: classification of a raw keyword token.
The Rust `match` on `&str` is a sequence of equality tests ending in a
catch-all `_ => Type::Variant`. -/
def Type'.fromStr (s : String) : Type' :=
  if s = "struct" then .Struct
  else if s = "mod" then .Mod
  else if s = "enum" then .Enum
  else if s = "fn" then .Fn
  else if s = "const" then .Const
  else if s = "static" then .Static
  else if s = "type" then .«Type»
  else if s = "impl" then .Impl
  else if s = "use" then .Use
  else if s = "trait" then .Trait
  else if s = "macro" ∨ s = "macro_rules" ∨ s = "macro_rules!" then .Macro
  else .Variant

/-- The `TypeStruct` struct of `src/types.rs`: a scope node.  Field order as
in the source: `ty`, `parent`, `name`, `args`. -/
inductive TypeStruct : Type where
  | mk (ty : Type') (parent : Option TypeStruct) (name : String) (args : List String) : TypeStruct

def TypeStruct.ty : TypeStruct → Type'
  | .mk t _ _ _ => t

def TypeStruct.parent : TypeStruct → Option TypeStruct
  | .mk _ p _ _ => p

def TypeStruct.name : TypeStruct → String
  | .mk _ _ n _ => n

def TypeStruct.args : TypeStruct → List String
  | .mk _ _ _ a => a

/-- `TypeStruct::new`: a node with the given kind and name, empty `args`,
no parent. -/
def TypeStruct.new (ty : Type') (name : String) : TypeStruct :=
  .mk ty none name []

/-- `TypeStruct::empty`: the sentinel node — kind `Unknown`, empty name,
empty args, no parent. -/
def TypeStruct.empty : TypeStruct :=
  .mk Type'.Unknown none ("") []

/-- `impl PartialEq for TypeStruct`, method `eq`: field-wise comparison in
source order `ty`, `name`, `args`, `parent`; `Option<Box<_>>` equality is
`None == None`, or `Some == Some` compared recursively. -/
def TypeStruct.eq : TypeStruct → TypeStruct → Bool
  | .mk ty1 p1 n1 a1, .mk ty2 p2 n2 a2 =>
    ty1 == ty2 && n1 == n2 && a1 == a2 &&
      match p1, p2 with
      | some q1, some q2 => TypeStruct.eq q1 q2
      | none, none => true
      | _, _ => false

/-- `impl Clone for TypeStruct`, method `clone`: copies `ty`, `name`, `args`
and rebuilds the parent with a fresh `Box::new(p.deref().clone())` at every
level. -/
def TypeStruct.clone : TypeStruct → TypeStruct
  | .mk ty (some p) n a => .mk ty (some p.clone) n a
  | .mk ty none n a => .mk ty none n a

/-- Rust `Vec<String>::join(" ")`: elements separated by single spaces, no
leading or trailing space. -/
def spaceJoin : List String → String
  | [] => ""
  | [s] => s
  | s :: t :: r => s ++ " " ++ spaceJoin (t :: r)

/-- `impl Debug for TypeStruct`: with a parent, writes
`"{:?}§{} {}{}"` (parent's Debug, `§`, kind, space, name, joined args);
without one, writes `"{} {}{}"`.  No elision of any kind. -/
def debug_fmt : TypeStruct → String
  | .mk ty (some p) n a => debug_fmt p ++ "§" ++ ty.display ++ " " ++ n ++ spaceJoin a
  | .mk ty none n a => ty.display ++ " " ++ n ++ spaceJoin a

/-- The free function `show` of `src/types.rs` (named `show'` here because
`show` is reserved in Lean): writes `"{} {}{}§"` when the node is being
rendered as a parent, `"{} {}{}"` otherwise. -/
def show' (t : TypeStruct) (is_parent : Bool) : String :=
  if is_parent then
    t.ty.display ++ " " ++ t.name ++ spaceJoin t.args ++ "§"
  else
    t.ty.display ++ " " ++ t.name ++ spaceJoin t.args

/-- The free function `sub_call` of `src/types.rs`.  The source first tests
`t.ty == Type::Macro && is_parent == true` and in that case skips `t`,
recursing on the parent when present (writing nothing when absent);
otherwise it renders the parent chain first (recursively, with
`is_parent = true`) and then `show`s `t` itself.  Here the source's two
`match t.parent` expressions are fused into the top-level pattern match so
that the recursion is structural; each `if` branch below is the exact arm
the source executes for that pattern. -/
def sub_call : TypeStruct → Bool → String
  | .mk ty (some p) name args, is_parent =>
    if ty = Type'.Macro ∧ is_parent = true then
      sub_call p true
    else
      sub_call p true ++ show' (.mk ty (some p) name args) is_parent
  | .mk ty none name args, is_parent =>
    if ty = Type'.Macro ∧ is_parent = true then
      ""
    else
      show' (.mk ty none name args) is_parent

/-- `impl Display for TypeStruct`: `sub_call(f, self, false)`. -/
def display_fmt (t : TypeStruct) : String :=
  sub_call t false

/-- The `EventType` enum of `src/types.rs` (scan events). -/
inductive EventType : Type where
  | Comment (text : String)
  | FileComment (text : String)
  | «Type» (t : TypeStruct)
  | InScope
  | OutScope

/-! ### Derived notions used to state the claims -/

/-- Induction along the parent chain of a scope node. -/
theorem TypeStruct.chain_ind (motive : TypeStruct → Prop)
    (base : ∀ ty name args, motive (TypeStruct.mk ty none name args))
    (step : ∀ ty p name args, motive p → motive (TypeStruct.mk ty (some p) name args)) :
    ∀ t, motive t
  | .mk ty none name args => base ty name args
  | .mk ty (some p) name args => step ty p name args (chain_ind motive base step p)

/-- The textual segment one node contributes to a rendered path:
keyword, one space, name, then the space-joined arguments appended
directly (this is what `show` writes, without the `§`). -/
def segStr (ty : Type') (name : String) (args : List String) : String :=
  ty.display ++ " " ++ name ++ spaceJoin args

/-- A list of segments joined by the single character `§`, with no leading
or trailing separator. -/
def sepJoin : List String → String
  | [] => ""
  | [s] => s
  | s :: t :: r => s ++ "§" ++ sepJoin (t :: r)

/-- Plain concatenation of a list of strings. -/
def joinAll : List String → String
  | [] => ""
  | s :: r => s ++ joinAll r

/-- The segments a node contributes when it is rendered as an ancestor
(with elision): a node of kind `Macro` contributes nothing, every other
node contributes its own segment after those of its ancestors. -/
def ancSegs : TypeStruct → List String
  | .mk ty (some p) n a =>
    ancSegs p ++ (if ty = Type'.Macro then [] else [segStr ty n a])
  | .mk ty none n a =>
    if ty = Type'.Macro then [] else [segStr ty n a]

/-- The segments of a rendered scope path: the (macro-elided) segments of
the strict ancestors, then the leaf's own segment, which is always kept. -/
def renderSegs : TypeStruct → List String
  | .mk ty (some p) n a => ancSegs p ++ [segStr ty n a]
  | .mk ty none n a => [segStr ty n a]

/-- Every node of the chain, outermost first, with no elision at all. -/
def allSegs : TypeStruct → List String
  | .mk ty (some p) n a => allSegs p ++ [segStr ty n a]
  | .mk ty none n a => [segStr ty n a]

/-- No node anywhere in this chain (the node itself included) has kind
`Macro`. -/
def chainNoMacro : TypeStruct → Bool
  | .mk ty (some p) _ _ => !(ty == Type'.Macro) && chainNoMacro p
  | .mk ty none _ _ => !(ty == Type'.Macro)

/-- No strict ancestor of this node has kind `Macro` (the node itself may). -/
def noMacroAncestor : TypeStruct → Bool
  | .mk _ (some p) _ _ => chainNoMacro p
  | .mk _ none _ _ => true

/-- Some node of this chain (itself included) has kind `Macro`. -/
def hasMacro : TypeStruct → Bool
  | .mk ty (some p) _ _ => (ty == Type'.Macro) || hasMacro p
  | .mk ty none _ _ => ty == Type'.Macro

/-- The number of nodes in the chain (the node plus its ancestors). -/
def TypeStruct.depth : TypeStruct → Nat
  | .mk _ (some p) _ _ => p.depth + 1
  | .mk _ none _ _ => 1

/-- `sub_call` with an explicit recursion budget: `none` when the budget is
exhausted before the walk finishes, otherwise the rendered string.  Each
recursive call spends one unit and moves to the node's parent, exactly as
`sub_call` does. -/
def sub_call_fuel : Nat → TypeStruct → Bool → Option String
  | 0, _, _ => none
  | fuel + 1, .mk ty (some p) name args, is_parent =>
    if ty = Type'.Macro ∧ is_parent = true then
      sub_call_fuel fuel p true
    else
      (sub_call_fuel fuel p true).map
        (fun s => s ++ show' (.mk ty (some p) name args) is_parent)
  | _ + 1, .mk ty none name args, is_parent =>
    if ty = Type'.Macro ∧ is_parent = true then
      some ""
    else
      some (show' (.mk ty none name args) is_parent)

/-- Modelled from the spec: the base-case rendering as §4.2 words it —
keyword, a space, the name, and the space-joined arguments "with a leading
space before the first argument if any exist".  Used only to compare the
spec's wording with the code's `show`. -/
def specBaseRender (t : TypeStruct) : String :=
  t.ty.display ++ " " ++ t.name ++
    (if t.args.isEmpty then "" else " " ++ spaceJoin t.args)

/-! ### Supporting lemmas -/

theorem joinAll_append (l1 l2 : List String) :
    joinAll (l1 ++ l2) = joinAll l1 ++ joinAll l2 := by
  induction l1 with
  | nil => simp [joinAll, String.empty_append]
  | cons s r ih => simp [joinAll, ih, String.append_assoc]

theorem sepJoin_singleton_append (l : List String) (y : String) :
    sepJoin (l ++ [y]) = joinAll (l.map (fun s => s ++ "§")) ++ y := by
  induction l with
  | nil => simp [sepJoin, joinAll, String.empty_append]
  | cons s r ih =>
    cases r with
    | nil => simp [sepJoin, joinAll, String.append_empty, String.append_assoc]
    | cons t r2 =>
      simp only [List.cons_append] at ih ⊢
      simp [sepJoin, joinAll, ih, String.append_assoc]

theorem sub_call_parent_eq (t : TypeStruct) :
    sub_call t true = joinAll ((ancSegs t).map (fun s => s ++ "§")) := by
  induction t using TypeStruct.chain_ind with
  | base ty n a =>
    by_cases h : ty = Type'.Macro
    · simp [sub_call, ancSegs, h, joinAll]
    · simp [sub_call, ancSegs, h, joinAll, show', segStr, String.append_empty,
        String.append_assoc, TypeStruct.ty, TypeStruct.name, TypeStruct.args]
  | step ty p n a ih =>
    by_cases h : ty = Type'.Macro
    · simp [sub_call, ancSegs, h, ih, joinAll]
    · simp [sub_call, ancSegs, h, ih, joinAll, joinAll_append, show', segStr,
        String.append_empty, String.append_assoc, TypeStruct.ty, TypeStruct.name,
        TypeStruct.args]

theorem sub_call_leaf_eq (t : TypeStruct) :
    sub_call t false = sepJoin (renderSegs t) := by
  cases t with
  | mk ty parent n a =>
    cases parent with
    | none =>
      simp [sub_call, renderSegs, sepJoin, show', segStr, TypeStruct.ty,
        TypeStruct.name, TypeStruct.args]
    | some p =>
      simp [sub_call, renderSegs, sepJoin_singleton_append, sub_call_parent_eq,
        show', segStr, TypeStruct.ty, TypeStruct.name, TypeStruct.args,
        String.append_assoc]

theorem ancSegs_eq_allSegs : ∀ t, chainNoMacro t = true → ancSegs t = allSegs t := by
  intro t
  induction t using TypeStruct.chain_ind with
  | base ty n a =>
    intro h
    simp [chainNoMacro] at h
    simp [ancSegs, allSegs, h]
  | step ty p n a ih =>
    intro h
    simp [chainNoMacro] at h
    simp [ancSegs, allSegs, h.1, ih h.2]

/-! ### Claim theorems -/

/-- C1: `Display` rendering elides macro-kind ancestors: a `Macro` ancestor
contributes no segment (the walk continues at its own parent, as the second
conjunct states directly), the rendered path is exactly the elided ancestor
segments followed by the leaf's segment (the leaf is always kept, whatever
its kind), and the concrete chain `fn run` / `macro gen` / `mod outer`
renders as `"mod outer§fn run"`. -/
theorem render_ancestor_elision :
    (∀ t, sub_call t false = sepJoin (renderSegs t)) ∧
    (∀ p n a, sub_call (TypeStruct.mk Type'.Macro (some p) n a) true = sub_call p true) ∧
    sub_call
      (TypeStruct.mk Type'.Fn
        (some (TypeStruct.mk Type'.Macro
          (some (TypeStruct.mk Type'.Mod none ("outer") [])) ("gen") []))
        ("run") []) false = "mod outer§fn run" :=
  ⟨sub_call_leaf_eq, fun _ _ _ => by simp [sub_call], by decide⟩

/-- C2: on a chain with no macro-kind strict ancestor, `Display` rendering
is the full list of segments, outermost ancestor first, joined by the single
character `§` with no leading or trailing separator; concretely,
`fn run` inside `impl Foo` renders as `"impl Foo§fn run"`. -/
theorem render_no_macro_chain :
    (∀ t, noMacroAncestor t = true → sub_call t false = sepJoin (allSegs t)) ∧
    sub_call
      (TypeStruct.mk Type'.Fn
        (some (TypeStruct.mk Type'.Impl none ("Foo") [])) ("run") []) false
      = "impl Foo§fn run" := by
  constructor
  · intro t h
    cases t with
    | mk ty parent n a =>
      cases parent with
      | none => simp [sub_call_leaf_eq, renderSegs, allSegs]
      | some p =>
        simp only [noMacroAncestor] at h
        simp [sub_call_leaf_eq, renderSegs, allSegs, ancSegs_eq_allSegs p h]
  · decide

theorem render_no_macro_chain_witness :
    noMacroAncestor
      (TypeStruct.mk Type'.Fn
        (some (TypeStruct.mk Type'.Impl none ("Foo") [])) ("run") []) = true ∧
    sub_call
      (TypeStruct.mk Type'.Fn
        (some (TypeStruct.mk Type'.Impl none ("Foo") [])) ("run") []) false
      = sepJoin (allSegs
        (TypeStruct.mk Type'.Fn
          (some (TypeStruct.mk Type'.Impl none ("Foo") [])) ("run") [])) :=
  ⟨by decide, render_no_macro_chain.1 _ (by decide)⟩

/-- C3: for every symbol kind other than `Unknown`, classifying its
canonical keyword yields the kind back: `Type::from` is a left inverse of
`Display for Type` away from `Unknown`. -/
theorem classify_keyword_inverse (K : Type') (h : K ≠ Type'.Unknown) :
    Type'.fromStr K.display = K := by
  cases K <;> first | decide | exact absurd rfl h

theorem classify_keyword_inverse_witness :
    Type'.Variant ≠ Type'.Unknown ∧
    Type'.fromStr (Type'.display Type'.Variant) = Type'.Variant :=
  ⟨by decide, classify_keyword_inverse Type'.Variant (by decide)⟩

/-- C4: `Type::from` is total: the ten exact keywords map to their kinds,
the three macro spellings map to `Macro`, every other string maps to
`Variant`, and no string ever maps to `Unknown`. -/
theorem classify_total :
    (Type'.fromStr ("struct") = Type'.Struct ∧
     Type'.fromStr ("mod") = Type'.Mod ∧
     Type'.fromStr ("enum") = Type'.Enum ∧
     Type'.fromStr ("fn") = Type'.Fn ∧
     Type'.fromStr ("const") = Type'.Const ∧
     Type'.fromStr ("static") = Type'.Static ∧
     Type'.fromStr ("type") = Type'.«Type» ∧
     Type'.fromStr ("impl") = Type'.Impl ∧
     Type'.fromStr ("use") = Type'.Use ∧
     Type'.fromStr ("trait") = Type'.Trait) ∧
    (Type'.fromStr ("macro") = Type'.Macro ∧
     Type'.fromStr ("macro_rules") = Type'.Macro ∧
     Type'.fromStr ("macro_rules!") = Type'.Macro) ∧
    (∀ s : String,
      s ∉ ["struct", "mod", "enum", "fn", "const", "static", "type", "impl",
           "use", "trait", "macro", "macro_rules", "macro_rules!"] →
      Type'.fromStr s = Type'.Variant) ∧
    (∀ s : String, Type'.fromStr s ≠ Type'.Unknown) := by
  refine ⟨by decide, by decide, ?_, ?_⟩
  · intro s h
    simp only [List.mem_cons, List.not_mem_nil, or_false, not_or] at h
    obtain ⟨h1, h2, h3, h4, h5, h6, h7, h8, h9, h10, h11, h12, h13⟩ := h
    simp [Type'.fromStr, h1, h2, h3, h4, h5, h6, h7, h8, h9, h10, h11, h12, h13]
  · intro s
    unfold Type'.fromStr
    repeat' split
    all_goals simp

theorem classify_total_witness :
    (("hello" : String) ∉
      ["struct", "mod", "enum", "fn", "const", "static", "type", "impl",
       "use", "trait", "macro", "macro_rules", "macro_rules!"]) ∧
    Type'.fromStr ("hello") = Type'.Variant ∧
    Type'.fromStr ("hello") ≠ Type'.Unknown :=
  ⟨by decide, classify_total.2.2.1 ("hello") (by decide),
    classify_total.2.2.2 ("hello")⟩

/-- C5 counterexample: the claim's base-case format inserts a leading space
before the first argument, but `show` writes `"{} {}{}"`, appending the
joined arguments directly after the name.  At the node
`Struct "Point" ["<T>"]` the code renders `"struct Point<T>"` while the
claimed format (embedded as `specBaseRender`) gives `"struct Point <T>"`. -/
theorem base_render_leading_space_cex :
    sub_call (TypeStruct.mk Type'.Struct none ("Point") [("<T>")]) false
      = "struct Point<T>" ∧
    specBaseRender (TypeStruct.mk Type'.Struct none ("Point") [("<T>")])
      = "struct Point <T>" ∧
    sub_call (TypeStruct.mk Type'.Struct none ("Point") [("<T>")]) false ≠
      specBaseRender (TypeStruct.mk Type'.Struct none ("Point") [("<T>")]) :=
  ⟨by decide, by decide, by decide⟩

/-- C5 amended: in the base case (no parent), `Display` rendering emits the
keyword, one space, the name, and then the arguments joined with single
spaces and appended directly after the name, with no leading space before
the first argument. -/
theorem base_render_args_direct (ty : Type') (n : String) (a : List String) :
    sub_call (TypeStruct.mk ty none n a) false
      = ty.display ++ " " ++ n ++ spaceJoin a := by
  simp [sub_call, show', TypeStruct.ty, TypeStruct.name, TypeStruct.args]

/-- C6: a parentless `Struct` named `"Point"` with arguments `["<T>"]`
renders as exactly `"struct Point<T>"`. -/
theorem render_struct_point_generic :
    sub_call (TypeStruct.mk Type'.Struct none ("Point") [("<T>")]) false
      = "struct Point<T>" := by decide

/-- C7: cloning a scope node yields a value-equal node (`PartialEq::eq`
returns `true`) whose parent chain has the same length; the `Clone`
embedding rebuilds each ancestor node, mirroring the source's
`Box::new(p.deref().clone())` at every level. -/
theorem clone_eq_and_depth (n : TypeStruct) :
    TypeStruct.eq n n.clone = true ∧ n.clone.depth = n.depth := by
  induction n using TypeStruct.chain_ind with
  | base ty nm a => simp [TypeStruct.clone, TypeStruct.eq, TypeStruct.depth]
  | step ty p nm a ih =>
    simp [TypeStruct.clone, TypeStruct.eq, TypeStruct.depth, ih.1, ih.2]

/-- C8: rendering the empty sentinel (`TypeStruct::empty`: kind `Unknown`,
empty name, no arguments, no parent) yields exactly the two-character
string `"? "`. -/
theorem render_empty_sentinel :
    sub_call TypeStruct.empty false = "? " ∧
    (sub_call TypeStruct.empty false).length = 2 := by decide

/-- C9: the rendering walk strictly descends the parent chain, so a
recursion budget equal to the chain's depth always suffices: the fuelled
variant of `sub_call` never runs out and computes exactly what the total
function `sub_call` computes. -/
theorem sub_call_fuel_depth :
    ∀ (t : TypeStruct) (b : Bool), sub_call_fuel t.depth t b = some (sub_call t b) := by
  intro t
  induction t using TypeStruct.chain_ind with
  | base ty n a =>
    intro b
    simp only [TypeStruct.depth, sub_call_fuel, sub_call]
    split_ifs <;> rfl
  | step ty p n a ih =>
    intro b
    simp only [TypeStruct.depth, sub_call_fuel, sub_call]
    split_ifs <;> simp [ih]

/-! ### Lemmas comparing `Debug` and `Display` -/

theorem sepJoin_append_of_ne :
    ∀ (l : List String) (y : String), l ≠ [] →
      sepJoin (l ++ [y]) = sepJoin l ++ "§" ++ y := by
  intro l y
  induction l with
  | nil => intro h; exact absurd rfl h
  | cons s r ih =>
    intro _
    cases r with
    | nil => simp [sepJoin, String.append_assoc]
    | cons t r2 =>
      simp only [List.cons_append] at ih ⊢
      simp [sepJoin, ih (by simp), String.append_assoc]

theorem allSegs_ne_nil (t : TypeStruct) : allSegs t ≠ [] := by
  cases t with
  | mk ty parent n a => cases parent <;> simp [allSegs]

theorem debug_fmt_eq_sepJoin (t : TypeStruct) :
    debug_fmt t = sepJoin (allSegs t) := by
  induction t using TypeStruct.chain_ind with
  | base ty n a => simp [debug_fmt, allSegs, sepJoin, segStr]
  | step ty p n a ih =>
    simp [debug_fmt, allSegs, sepJoin_append_of_ne _ _ (allSegs_ne_nil p), ih,
      segStr, String.append_assoc]

theorem space_length : (" " : String).length = 1 := by decide

theorem sect_length : ("§" : String).length = 1 := by decide

theorem sub_call_true_length :
    ∀ p : TypeStruct,
      (hasMacro p = true → (sub_call p true).length ≤ (debug_fmt p).length) ∧
      (hasMacro p = false → (sub_call p true).length = (debug_fmt p).length + 1) := by
  intro p
  induction p using TypeStruct.chain_ind with
  | base ty n a =>
    by_cases h : ty = Type'.Macro
    · refine ⟨fun _ => ?_, fun hf => ?_⟩
      · simp [sub_call, h]
      · simp [hasMacro, h] at hf
    · refine ⟨fun ht => ?_, fun _ => ?_⟩
      · simp [hasMacro, h] at ht
      · simp [sub_call, h, show', debug_fmt, String.length_append, space_length,
          sect_length, TypeStruct.ty, TypeStruct.name, TypeStruct.args]
  | step ty p n a ih =>
    have hd : (debug_fmt (TypeStruct.mk ty (some p) n a)).length
        = (debug_fmt p).length + 1 + ((Type'.display ty).length + 1 + n.length
            + (spaceJoin a).length) := by
      simp [debug_fmt, String.length_append, space_length, sect_length]
      omega
    by_cases h : ty = Type'.Macro
    · refine ⟨fun _ => ?_, fun hf => ?_⟩
      · have hs : sub_call (TypeStruct.mk ty (some p) n a) true = sub_call p true := by
          simp [sub_call, h]
        rw [hs, hd]
        rcases hp : hasMacro p with _ | _
        · have := ih.2 hp
          omega
        · have := ih.1 hp
          omega
      · simp [hasMacro, h] at hf
    · have hs : (sub_call (TypeStruct.mk ty (some p) n a) true).length
          = (sub_call p true).length + ((Type'.display ty).length + 1 + n.length
              + (spaceJoin a).length) + 1 := by
        simp [sub_call, h, show', String.length_append, space_length, sect_length,
          TypeStruct.ty, TypeStruct.name, TypeStruct.args]
        omega
      have hm : hasMacro (TypeStruct.mk ty (some p) n a) = hasMacro p := by
        simp [hasMacro, h]
      refine ⟨fun ht => ?_, fun hf => ?_⟩
      · rw [hm] at ht
        have := ih.1 ht
        rw [hs, hd]
        omega
      · rw [hm] at hf
        have := ih.2 hf
        rw [hs, hd]
        omega

theorem debug_ne_display_of_hasMacro (ty : Type') (p : TypeStruct) (n : String)
    (a : List String) (h : hasMacro p = true) :
    debug_fmt (TypeStruct.mk ty (some p) n a)
      ≠ sub_call (TypeStruct.mk ty (some p) n a) false := by
  have hR := (sub_call_true_length p).1 h
  have hlen1 : (sub_call (TypeStruct.mk ty (some p) n a) false).length
      = (sub_call p true).length + ((Type'.display ty).length + 1 + n.length
          + (spaceJoin a).length) := by
    simp [sub_call, show', String.length_append, space_length, sect_length,
      TypeStruct.ty, TypeStruct.name, TypeStruct.args]
  have hlen2 : (debug_fmt (TypeStruct.mk ty (some p) n a)).length
      = (debug_fmt p).length + 1 + ((Type'.display ty).length + 1 + n.length
          + (spaceJoin a).length) := by
    simp [debug_fmt, String.length_append, space_length, sect_length]
    omega
  intro heq
  have := congrArg String.length heq
  rw [hlen1, hlen2] at this
  omega

/-- C10: the `Debug` rendering performs no macro elision: it is the full
chain of `"<keyword> <name><args>"` segments, outermost first, joined by
`§`; consequently, whenever some ancestor has kind `Macro`, `Debug` and
`Display` produce different strings, as the concrete chain
`fn run` / `macro gen` / `mod outer` illustrates. -/
theorem debug_no_elision :
    (∀ t, debug_fmt t = sepJoin (allSegs t)) ∧
    (∀ (ty : Type') (p : TypeStruct) (n : String) (a : List String),
      hasMacro p = true →
      debug_fmt (TypeStruct.mk ty (some p) n a)
        ≠ sub_call (TypeStruct.mk ty (some p) n a) false) ∧
    (debug_fmt
        (TypeStruct.mk Type'.Fn
          (some (TypeStruct.mk Type'.Macro
            (some (TypeStruct.mk Type'.Mod none ("outer") [])) ("gen") []))
          ("run") []) = "mod outer§macro gen§fn run" ∧
     sub_call
        (TypeStruct.mk Type'.Fn
          (some (TypeStruct.mk Type'.Macro
            (some (TypeStruct.mk Type'.Mod none ("outer") [])) ("gen") []))
          ("run") []) false = "mod outer§fn run") :=
  ⟨debug_fmt_eq_sepJoin, debug_ne_display_of_hasMacro, by decide, by decide⟩

theorem debug_no_elision_witness :
    hasMacro (TypeStruct.mk Type'.Macro none ("gen") []) = true ∧
    debug_fmt
      (TypeStruct.mk Type'.Fn
        (some (TypeStruct.mk Type'.Macro none ("gen") [])) ("run") [])
      ≠ sub_call
        (TypeStruct.mk Type'.Fn
          (some (TypeStruct.mk Type'.Macro none ("gen") [])) ("run") []) false :=
  ⟨by decide, debug_no_elision.2.1 Type'.Fn
    (TypeStruct.mk Type'.Macro none ("gen") []) ("run") [] (by decide)⟩

end Stripper
